import Mathlib

/-!
Shallow embedding of the `circular_buffer` Rust crate (src/lib.rs).

The Rust code is a ring buffer over a boxed slice of `Option<T>`:

  struct CircularBuffer<T> { data: Box<[Option<T>]>, size: usize, start: usize, end: usize }

Rust slice indexing `self.data[i]` panics when `i` is out of range and `%` panics
on a zero divisor.  Every operation is therefore embedded as an `Option`-valued
function on the state: `none` models a panic (no resulting state), `some` models
normal return.  The `Result<_, Error>` values of the source become `Except Error _`.
The field `end` is named `end_` because `end` is a Lean keyword.
-/

/-- The `Error` enum of the source: `EmptyBuffer` and `FullBuffer`. -/
inductive Error where
  | EmptyBuffer : Error
  | FullBuffer : Error
deriving DecidableEq, Repr

/-- The `CircularBuffer<T>` struct: slots, size, start index, end index. -/
structure CircularBuffer (T : Type) where
  data : List (Option T)
  size : Nat
  start : Nat
  end_ : Nat
deriving DecidableEq, Repr

/-- `CircularBuffer::new(capacity)`: `capacity` slots all `None`, both cursors 0. -/
def CircularBuffer.new (T : Type) (capacity : Nat) : CircularBuffer T :=
  { data := List.replicate capacity none
    size := capacity
    start := 0
    end_ := 0 }

/-- The condition `self.start == self.end && self.data[self.start].is_some()`
shared by `write` and `overwrite`.  `&&` short-circuits, so the slot is indexed
(and can panic, modelled by `none`) only when the cursors coincide. -/
def CircularBuffer.fullCheck {T : Type} (b : CircularBuffer T) : Option Bool :=
  if b.start = b.end_ then
    match b.data[b.start]? with
    | none => none
    | some slot => some slot.isSome
  else
    some false

/-- `CircularBuffer::write`: on the full check, fail with `FullBuffer`; otherwise
store at `end` (panics when `end` is out of range), then `end = (end+1) % size`
(panics when `size = 0`). -/
def CircularBuffer.write {T : Type} (b : CircularBuffer T) (element : T) :
    Option (Except Error Unit × CircularBuffer T) :=
  match b.fullCheck with
  | none => none
  | some true => some (Except.error Error.FullBuffer, b)
  | some false =>
    if b.end_ < b.data.length then
      if b.size = 0 then none
      else
        some (Except.ok (),
          { b with data := b.data.set b.end_ (some element)
                   end_ := (b.end_ + 1) % b.size })
    else none

/-- `Option::take` on slot `i`: return the slot's previous content and the list
with that slot replaced by `none`; `none` models the index panic. -/
def takeSlot {T : Type} (l : List (Option T)) (i : Nat) :
    Option (Option T × List (Option T)) :=
  match l[i]? with
  | none => none
  | some slot => some (slot, l.set i none)

/-- `CircularBuffer::read`: if `data[start].is_none()` fail with `EmptyBuffer`;
otherwise `data[start].take()`, and on `Some` advance `start = (start+1) % size`
(panics when `size = 0`); the `else` fallback of the source increments `start`
without wrapping and reports `EmptyBuffer`. -/
def CircularBuffer.read {T : Type} (b : CircularBuffer T) :
    Option (Except Error T × CircularBuffer T) :=
  match b.data[b.start]? with
  | none => none
  | some slot =>
    if slot.isNone then
      some (Except.error Error.EmptyBuffer, b)
    else
      match takeSlot b.data b.start with
      | none => none
      | some (taken, d) =>
        match taken with
        | some read_value =>
          if b.size = 0 then none
          else
            some (Except.ok read_value,
              { b with data := d, start := (b.start + 1) % b.size })
        | none =>
          some (Except.error Error.EmptyBuffer,
            { b with data := d, start := b.start + 1 })

/-- `CircularBuffer::clear`: `while self.read().is_ok() {}`.  The loop terminates
because each successful read empties one occupied slot. -/
def CircularBuffer.clear {T : Type} (b : CircularBuffer T) :
    Option (CircularBuffer T) :=
  match h : b.read with
  | none => none
  | some (Except.error _, b2) => some b2
  | some (Except.ok v, b2) => b2.clear
termination_by b.data.countP fun o => o.isSome
decreasing_by
  have key : ∀ (l : List (Option T)) (i : Nat) (w : T), l[i]? = some (some w) →
      ((l.set i none).countP fun o => o.isSome) < l.countP fun o => o.isSome := by
    intro l
    induction l with
    | nil => intro i w hi; simp at hi
    | cons a t ih =>
      intro i w hi
      cases i with
      | zero =>
        simp only [List.getElem?_cons_zero, Option.some_inj] at hi
        subst hi
        simp [List.countP_cons]
      | succ j =>
        simp only [List.getElem?_cons_succ] at hi
        have hlt := ih j w hi
        simp only [List.set_cons_succ, List.countP_cons]
        omega
  cases hs : b.data[b.start]? with
  | none => simp [CircularBuffer.read, hs] at h
  | some slot =>
    cases slot with
    | none => simp [CircularBuffer.read, hs] at h
    | some w =>
      by_cases hz : b.size = 0
      · simp [CircularBuffer.read, takeSlot, hs, hz] at h
      · simp only [CircularBuffer.read, takeSlot, hs, Option.isNone_some,
          Bool.false_eq_true, if_false, if_neg hz] at h
        rw [Option.some_inj, Prod.mk.injEq] at h
        obtain ⟨-, h2⟩ := h
        have hk := key b.data b.start w hs
        rw [← h2]
        exact hk

/-- `CircularBuffer::overwrite`: on the full check, store `element` at `end`,
advance `start = (start+1) % size` and set `end = start`; otherwise delegate to
`write` and discard its result. -/
def CircularBuffer.overwrite {T : Type} (b : CircularBuffer T) (element : T) :
    Option (CircularBuffer T) :=
  match b.fullCheck with
  | none => none
  | some true =>
    if b.end_ < b.data.length then
      if b.size = 0 then none
      else
        some { b with data := b.data.set b.end_ (some element)
                      start := (b.start + 1) % b.size
                      end_ := (b.start + 1) % b.size }
    else none
  | some false =>
    match b.write element with
    | none => none
    | some (_, b2) => some b2

/-- Run a sequence of writes, collecting each write's result; `none` propagates
a panic. -/
def writes {T : Type} (b : CircularBuffer T) :
    List T → Option (List (Except Error Unit) × CircularBuffer T)
  | [] => some ([], b)
  | x :: xs =>
    match b.write x with
    | none => none
    | some (r, b2) =>
      match writes b2 xs with
      | none => none
      | some (rs, b3) => some (r :: rs, b3)

/-- Run `k` reads, collecting each read's result; `none` propagates a panic. -/
def reads {T : Type} (b : CircularBuffer T) :
    Nat → Option (List (Except Error T) × CircularBuffer T)
  | 0 => some ([], b)
  | k + 1 =>
    match b.read with
    | none => none
    | some (r, b2) =>
      match reads b2 k with
      | none => none
      | some (rs, b3) => some (r :: rs, b3)

/-- Abstraction relation: buffer `b` holds exactly the elements of `l`, oldest
first, as the contiguous circular segment of occupied slots that begins at
`start`; all other slots are empty, `end` sits `l.length` past `start`
(mod `size`), and the cursors are in range. -/
@[reducible] def Represents {T : Type} (b : CircularBuffer T) (l : List T) : Prop :=
  b.data.length = b.size ∧
  b.start < b.size ∧
  l.length ≤ b.size ∧
  b.end_ = (b.start + l.length) % b.size ∧
  ∀ j, j < b.size → b.data[(b.start + j) % b.size]? = some l[j]?

/-- States reachable from `new(capacity)` with `capacity ≥ 1` through the public
interface, where every intermediate operation returned (did not panic). -/
inductive Reachable (T : Type) : CircularBuffer T → Prop where
  | new (n : Nat) (h : 1 ≤ n) : Reachable T (CircularBuffer.new T n)
  | write (b b2 : CircularBuffer T) (x : T) (r : Except Error Unit)
      (hb : Reachable T b) (h : b.write x = some (r, b2)) : Reachable T b2
  | read (b b2 : CircularBuffer T) (r : Except Error T)
      (hb : Reachable T b) (h : b.read = some (r, b2)) : Reachable T b2
  | overwrite (b b2 : CircularBuffer T) (x : T)
      (hb : Reachable T b) (h : b.overwrite x = some b2) : Reachable T b2
  | clear (b b2 : CircularBuffer T)
      (hb : Reachable T b) (h : b.clear = some b2) : Reachable T b2

variable {T : Type}

/-- Adding distinct offsets below `n` to a base keeps residues distinct:
`j ↦ (s + j) % n` is injective on `[0, n)`. -/
theorem addModInj {n s a b : Nat} (ha : a < n) (hb : b < n)
    (h : (s + a) % n = (s + b) % n) : a = b := by
  have h2 : Nat.ModEq n a b := Nat.ModEq.add_left_cancel' s h
  rwa [Nat.ModEq, Nat.mod_eq_of_lt ha, Nat.mod_eq_of_lt hb] at h2

/-- A fresh buffer of positive capacity represents the empty sequence. -/
theorem new_represents (n : Nat) (h : 1 ≤ n) :
    Represents (CircularBuffer.new T n) [] := by
  refine ⟨by simp [CircularBuffer.new], h, by simp, by simp [CircularBuffer.new], ?_⟩
  intro j hj
  simp only [CircularBuffer.new] at hj ⊢
  rw [Nat.zero_add, Nat.mod_eq_of_lt hj, List.getElem?_replicate]
  simp [hj]

theorem Represents.size_pos {b : CircularBuffer T} {l : List T}
    (h : Represents b l) : 0 < b.size :=
  Nat.lt_of_le_of_lt (Nat.zero_le _) h.2.1

theorem Represents.startSlot {b : CircularBuffer T} {l : List T}
    (h : Represents b l) : b.data[b.start]? = some l[0]? := by
  have h0 := h.2.2.2.2 0 h.size_pos
  rwa [Nat.add_zero, Nat.mod_eq_of_lt h.2.1] at h0

theorem Represents.end_lt {b : CircularBuffer T} {l : List T}
    (h : Represents b l) : b.end_ < b.size := by
  rw [h.2.2.2.1]
  exact Nat.mod_lt _ h.size_pos

/-- On a full represented buffer the cursors coincide. -/
theorem Represents.start_eq_end_of_full {b : CircularBuffer T} {l : List T}
    (h : Represents b l) (hf : l.length = b.size) : b.start = b.end_ := by
  rw [h.2.2.2.1, hf, Nat.add_mod_right, Nat.mod_eq_of_lt h.2.1]

/-- On a full represented buffer the source's full check answers `true`. -/
theorem fullCheck_full {b : CircularBuffer T} {l : List T}
    (h : Represents b l) (hf : l.length = b.size) : b.fullCheck = some true := by
  have hse := h.start_eq_end_of_full hf
  have hlen : 0 < l.length := hf ▸ h.size_pos
  have hslot : l[0]? = some (l.get ⟨0, hlen⟩) := List.getElem?_eq_getElem hlen
  simp only [CircularBuffer.fullCheck]
  rw [if_pos hse, h.startSlot, hslot]
  rfl

/-- When the cursors coincide on a represented buffer, it is empty or full. -/
theorem Represents.empty_or_full_of_start_eq_end {b : CircularBuffer T} {l : List T}
    (h : Represents b l) (hse : b.start = b.end_) :
    l.length = 0 ∨ l.length = b.size := by
  rcases Nat.lt_or_ge l.length b.size with hlt | hge
  · left
    have he : (b.start + l.length) % b.size = (b.start + 0) % b.size := by
      rw [Nat.add_zero, Nat.mod_eq_of_lt h.2.1, ← h.2.2.2.1, ← hse]
    exact addModInj hlt h.size_pos he
  · right
    exact Nat.le_antisymm h.2.2.1 hge

/-- On a non-full represented buffer the source's full check answers `false`. -/
theorem fullCheck_nonfull {b : CircularBuffer T} {l : List T}
    (h : Represents b l) (hnf : l.length < b.size) : b.fullCheck = some false := by
  by_cases hse : b.start = b.end_
  · have hlen : l.length = 0 := by
      rcases h.empty_or_full_of_start_eq_end hse with h0 | hfull
      · exact h0
      · exact absurd hfull (Nat.ne_of_lt hnf)
    have hl : l = [] := List.eq_nil_of_length_eq_zero hlen
    subst hl
    simp only [CircularBuffer.fullCheck]
    rw [if_pos hse, h.startSlot]
    rfl
  · simp [CircularBuffer.fullCheck, hse]

/-- Appending one element does not change lookups away from the old length. -/
theorem getAppendSingleton {α : Type} (l : List α) (x : α) (j : Nat)
    (hj : j ≠ l.length) : (l ++ [x])[j]? = l[j]? := by
  rcases Nat.lt_or_ge j l.length with hlt | hge
  · exact List.getElem?_append_left hlt
  · have hgt : l.length < j := Nat.lt_of_le_of_ne hge (Ne.symm hj)
    rw [List.getElem?_eq_none hge, List.getElem?_eq_none]
    simp only [List.length_append, List.length_cons, List.length_nil]
    omega

/-- `write` on a full represented buffer fails with `FullBuffer` and leaves the
state unchanged. -/
theorem write_full {b : CircularBuffer T} {l : List T} (x : T)
    (h : Represents b l) (hf : l.length = b.size) :
    b.write x = some (Except.error Error.FullBuffer, b) := by
  simp [CircularBuffer.write, fullCheck_full h hf]

/-- `write` on a non-full represented buffer succeeds, stores the element at
`end`, advances `end`, and the new state represents `l ++ [x]`. -/
theorem write_ok {b : CircularBuffer T} {l : List T} (x : T)
    (h : Represents b l) (hnf : l.length < b.size) :
    b.write x = some (Except.ok (),
      { b with data := b.data.set b.end_ (some x)
               end_ := (b.end_ + 1) % b.size }) ∧
    Represents { b with data := b.data.set b.end_ (some x)
                        end_ := (b.end_ + 1) % b.size } (l ++ [x]) := by
  have hpos := h.size_pos
  have hez : b.end_ < b.size := h.end_lt
  have hlt : b.end_ < b.data.length := by rw [h.1]; exact hez
  have hz : b.size ≠ 0 := Nat.pos_iff_ne_zero.mp hpos
  constructor
  · simp [CircularBuffer.write, fullCheck_nonfull h hnf, hlt, hz]
  · refine ⟨?_, h.2.1, ?_, ?_, ?_⟩
    · show (b.data.set b.end_ (some x)).length = b.size
      rw [List.length_set]; exact h.1
    · show (l ++ [x]).length ≤ b.size
      rw [List.length_append, List.length_cons, List.length_nil]
      omega
    · show (b.end_ + 1) % b.size = (b.start + (l ++ [x]).length) % b.size
      rw [h.2.2.2.1, Nat.mod_add_mod, List.length_append, List.length_cons,
        List.length_nil, Nat.add_zero, ← Nat.add_assoc]
    · intro j hj
      have hj2 : j < b.size := hj
      show (b.data.set b.end_ (some x))[(b.start + j) % b.size]? = some ((l ++ [x])[j]?)
      by_cases hje : j = l.length
      · subst hje
        have hidx : (b.start + l.length) % b.size = b.end_ := (h.2.2.2.1).symm
        rw [hidx, List.getElem?_set_self hlt, List.getElem?_concat_length]
      · have hne : b.end_ ≠ (b.start + j) % b.size := by
          intro hcontra
          apply hje
          refine addModInj (s := b.start) hj2 hnf ?_
          rw [← h.2.2.2.1, ← hcontra]
        rw [List.getElem?_set_ne hne, getAppendSingleton l x j hje]
        exact h.2.2.2.2 j hj2

/-- `read` on an empty represented buffer fails with `EmptyBuffer` and leaves
the state unchanged. -/
theorem read_empty {b : CircularBuffer T} (h : Represents b ([] : List T)) :
    b.read = some (Except.error Error.EmptyBuffer, b) := by
  have hs : b.data[b.start]? = some none := by simpa using h.startSlot
  simp [CircularBuffer.read, hs]

/-- `read` on a nonempty represented buffer pops and returns the oldest
element; the new state represents the tail. -/
theorem read_ok {b : CircularBuffer T} {x : T} {rest : List T}
    (h : Represents b (x :: rest)) :
    b.read = some (Except.ok x,
      { b with data := b.data.set b.start none
               start := (b.start + 1) % b.size }) ∧
    Represents { b with data := b.data.set b.start none
                        start := (b.start + 1) % b.size } rest := by
  have hpos := h.size_pos
  have hz : b.size ≠ 0 := Nat.pos_iff_ne_zero.mp hpos
  have hs0 : b.data[b.start]? = some (some x) := by simpa using h.startSlot
  have hsl : b.start < b.data.length := by rw [h.1]; exact h.2.1
  have hlen : rest.length + 1 ≤ b.size := by
    have := h.2.2.1
    simpa [List.length_cons] using this
  constructor
  · simp [CircularBuffer.read, takeSlot, hs0, hz]
  · refine ⟨?_, ?_, ?_, ?_, ?_⟩
    · show (b.data.set b.start none).length = b.size
      rw [List.length_set]; exact h.1
    · show (b.start + 1) % b.size < b.size
      exact Nat.mod_lt _ hpos
    · show rest.length ≤ b.size
      omega
    · show b.end_ = ((b.start + 1) % b.size + rest.length) % b.size
      rw [Nat.mod_add_mod, h.2.2.2.1]
      congr 1
      rw [List.length_cons]
      omega
    · intro j hj
      have hj2 : j < b.size := hj
      show (b.data.set b.start none)[((b.start + 1) % b.size + j) % b.size]? =
        some (rest[j]?)
      rw [Nat.mod_add_mod]
      by_cases hend : j + 1 = b.size
      · have hidx : (b.start + 1 + j) % b.size = b.start := by
          have he : b.start + 1 + j = b.start + b.size := by omega
          rw [he, Nat.add_mod_right]
          exact Nat.mod_eq_of_lt h.2.1
        rw [hidx, List.getElem?_set_self hsl]
        have hrest : rest[j]? = none := List.getElem?_eq_none (by omega)
        rw [hrest]
      · have hlt1 : j + 1 < b.size := by omega
        have hne : b.start ≠ (b.start + 1 + j) % b.size := by
          intro hcontra
          have h0 : (b.start + 0) % b.size = (b.start + (j + 1)) % b.size := by
            rw [Nat.add_zero, Nat.mod_eq_of_lt h.2.1, hcontra]
            congr 1
            omega
          have := addModInj (s := b.start) hpos hlt1 h0
          omega
        rw [List.getElem?_set_ne hne]
        have hu := h.2.2.2.2 (j + 1) hlt1
        have hieq : b.start + (j + 1) = b.start + 1 + j := by omega
        rw [hieq] at hu
        rw [hu, List.getElem?_cons_succ]

/-- `overwrite` on a full represented buffer evicts the oldest element: the new
state represents `l.tail ++ [x]`. -/
theorem overwrite_full {b : CircularBuffer T} {l : List T} (x : T)
    (h : Represents b l) (hf : l.length = b.size) :
    b.overwrite x = some
      { b with data := b.data.set b.end_ (some x)
               start := (b.start + 1) % b.size
               end_ := (b.start + 1) % b.size } ∧
    Represents { b with data := b.data.set b.end_ (some x)
                        start := (b.start + 1) % b.size
                        end_ := (b.start + 1) % b.size } (l.tail ++ [x]) := by
  have hpos := h.size_pos
  have hz : b.size ≠ 0 := Nat.pos_iff_ne_zero.mp hpos
  have hse := h.start_eq_end_of_full hf
  have hel : b.end_ < b.data.length := by rw [h.1]; exact h.end_lt
  have hsl : b.start < b.data.length := by rw [h.1]; exact h.2.1
  constructor
  · simp [CircularBuffer.overwrite, fullCheck_full h hf, hel, hz]
  · obtain ⟨y, t, hl⟩ : ∃ y t, l = y :: t := by
      cases l with
      | nil => rw [List.length_nil] at hf; omega
      | cons y t => exact ⟨y, t, rfl⟩
    subst hl
    have hlen : t.length + 1 = b.size := by
      rw [List.length_cons] at hf
      exact hf
    refine ⟨?_, ?_, ?_, ?_, ?_⟩
    · show (b.data.set b.end_ (some x)).length = b.size
      rw [List.length_set]; exact h.1
    · show (b.start + 1) % b.size < b.size
      exact Nat.mod_lt _ hpos
    · show ((y :: t).tail ++ [x]).length ≤ b.size
      simp only [List.tail_cons, List.length_append, List.length_cons,
        List.length_nil]
      omega
    · show (b.start + 1) % b.size =
        ((b.start + 1) % b.size + ((y :: t).tail ++ [x]).length) % b.size
      rw [Nat.mod_add_mod]
      simp only [List.tail_cons, List.length_append, List.length_cons,
        List.length_nil]
      have he : b.start + 1 + (t.length + (0 + 1)) = b.start + 1 + b.size := by
        omega
      rw [he, Nat.add_mod_right]
    · intro j hj
      have hj2 : j < b.size := hj
      show (b.data.set b.end_ (some x))[((b.start + 1) % b.size + j) % b.size]? =
        some (((y :: t).tail ++ [x])[j]?)
      rw [Nat.mod_add_mod]
      simp only [List.tail_cons]
      by_cases hend : j + 1 = b.size
      · have hidx : (b.start + 1 + j) % b.size = b.start := by
          have he : b.start + 1 + j = b.start + b.size := by omega
          rw [he, Nat.add_mod_right]
          exact Nat.mod_eq_of_lt h.2.1
        rw [hidx, hse, List.getElem?_set_self hel]
        have hjt : j = t.length := by omega
        rw [hjt, List.getElem?_concat_length]
      · have hlt1 : j + 1 < b.size := by omega
        have hne : b.end_ ≠ (b.start + 1 + j) % b.size := by
          intro hcontra
          have h0 : (b.start + 0) % b.size = (b.start + (j + 1)) % b.size := by
            rw [Nat.add_zero, Nat.mod_eq_of_lt h.2.1, hse, hcontra]
            congr 1
            omega
          have := addModInj (s := b.start) hpos hlt1 h0
          omega
        rw [List.getElem?_set_ne hne]
        have hu := h.2.2.2.2 (j + 1) hlt1
        have hieq : b.start + (j + 1) = b.start + 1 + j := by omega
        rw [hieq] at hu
        rw [hu, List.getElem?_cons_succ]
        have hjt : j < t.length := by omega
        rw [List.getElem?_append_left hjt]

/-- On a non-full represented buffer `overwrite` delegates to `write` and
reaches exactly the state `write` reaches. -/
theorem overwrite_nonfull {b : CircularBuffer T} {l : List T} (x : T)
    (h : Represents b l) (hnf : l.length < b.size) :
    b.overwrite x = some
      { b with data := b.data.set b.end_ (some x)
               end_ := (b.end_ + 1) % b.size } := by
  have hw := (write_ok x h hnf).1
  simp [CircularBuffer.overwrite, fullCheck_nonfull h hnf, hw]

/-- One unfolding of the `clear` loop when `read` reports an error: the loop
exits in the state the failed read produced. -/
theorem clear_of_read_error {b b2 : CircularBuffer T} {e : Error}
    (h : b.read = some (Except.error e, b2)) : b.clear = some b2 := by
  rw [CircularBuffer.clear]
  split
  all_goals rename_i heq
  · rw [h] at heq; cases heq
  · rw [h] at heq
    rw [Option.some_inj, Prod.mk.injEq] at heq
    rw [heq.2]
  · rw [h] at heq
    rw [Option.some_inj, Prod.mk.injEq] at heq
    cases heq.1

/-- One unfolding of the `clear` loop when `read` succeeds: the loop continues
from the state the read produced. -/
theorem clear_of_read_ok {b b2 : CircularBuffer T} {v : T}
    (h : b.read = some (Except.ok v, b2)) : b.clear = b2.clear := by
  rw [CircularBuffer.clear]
  split
  all_goals rename_i heq
  · rw [h] at heq; cases heq
  · rw [h] at heq
    rw [Option.some_inj, Prod.mk.injEq] at heq
    cases heq.1
  · rw [h] at heq
    rw [Option.some_inj, Prod.mk.injEq] at heq
    rw [heq.2]

/-- `clear` on a represented buffer terminates normally in a represented empty
state of the same capacity. -/
theorem clear_represents {l : List T} {b : CircularBuffer T}
    (h : Represents b l) :
    ∃ b2, b.clear = some b2 ∧ Represents b2 [] ∧ b2.size = b.size := by
  induction l generalizing b with
  | nil => exact ⟨b, clear_of_read_error (read_empty h), h, rfl⟩
  | cons y t ih =>
    obtain ⟨hr, hrep⟩ := read_ok h
    obtain ⟨b2, hc, hrep2, hsz⟩ := ih hrep
    exact ⟨b2, (clear_of_read_ok hr).trans hc, hrep2, hsz⟩

/-- Writing `ws` into a represented buffer with enough free room: every write
returns `Ok(())` and the final state represents `l ++ ws`. -/
theorem writes_ok {l : List T} (ws : List T) {b : CircularBuffer T}
    (h : Represents b l) (hroom : l.length + ws.length ≤ b.size) :
    ∃ b2, writes b ws = some (List.replicate ws.length (Except.ok ()), b2) ∧
      Represents b2 (l ++ ws) ∧ b2.size = b.size := by
  induction ws generalizing b l with
  | nil => exact ⟨b, rfl, by simpa using h, rfl⟩
  | cons x xs ih =>
    have hnf : l.length < b.size := by
      rw [List.length_cons] at hroom
      omega
    obtain ⟨hw, hrep⟩ := write_ok x h hnf
    have hroom2 : (l ++ [x]).length + xs.length ≤ b.size := by
      rw [List.length_append, List.length_cons, List.length_nil]
      rw [List.length_cons] at hroom
      omega
    obtain ⟨b2, hws, hrep2, hsz⟩ := ih hrep hroom2
    refine ⟨b2, ?_, ?_, hsz⟩
    · simp [writes, hw, hws, List.replicate_succ]
    · rw [List.append_assoc] at hrep2
      simpa using hrep2

/-- Reading a represented buffer out completely: `l.length` reads return
exactly `l.map Except.ok` and leave an empty represented state. -/
theorem reads_ok {l : List T} {b : CircularBuffer T} (h : Represents b l) :
    ∃ b2, reads b l.length = some (l.map Except.ok, b2) ∧
      Represents b2 [] ∧ b2.size = b.size := by
  induction l generalizing b with
  | nil => exact ⟨b, rfl, h, rfl⟩
  | cons x t ih =>
    obtain ⟨hr, hrep⟩ := read_ok h
    obtain ⟨b2, hreads, hrep2, hsz⟩ := ih hrep
    refine ⟨b2, ?_, hrep2, hsz⟩
    rw [List.length_cons, List.map_cons]
    simp [reads, hr, hreads]

/-- Every state reachable through the public interface represents some element
sequence: the data-structure invariant holds. -/
theorem reachable_represents {b : CircularBuffer T} (h : Reachable T b) :
    ∃ l, Represents b l := by
  induction h with
  | new n hn => exact ⟨[], new_represents n hn⟩
  | write b0 b2 x r hb hw ih =>
    obtain ⟨l, hl⟩ := ih
    rcases Nat.lt_or_ge l.length b0.size with hnf | hge
    · obtain ⟨hw2, hrep⟩ := write_ok x hl hnf
      have he := hw2.symm.trans hw
      rw [Option.some_inj, Prod.mk.injEq] at he
      exact ⟨l ++ [x], he.2 ▸ hrep⟩
    · have hf : l.length = b0.size := Nat.le_antisymm hl.2.2.1 hge
      have he := (write_full x hl hf).symm.trans hw
      rw [Option.some_inj, Prod.mk.injEq] at he
      exact ⟨l, he.2 ▸ hl⟩
  | read b0 b2 r hb hr ih =>
    obtain ⟨l, hl⟩ := ih
    cases l with
    | nil =>
      have he := (read_empty hl).symm.trans hr
      rw [Option.some_inj, Prod.mk.injEq] at he
      exact ⟨[], he.2 ▸ hl⟩
    | cons y t =>
      obtain ⟨hr2, hrep⟩ := read_ok hl
      have he := hr2.symm.trans hr
      rw [Option.some_inj, Prod.mk.injEq] at he
      exact ⟨t, he.2 ▸ hrep⟩
  | overwrite b0 b2 x hb ho ih =>
    obtain ⟨l, hl⟩ := ih
    rcases Nat.lt_or_ge l.length b0.size with hnf | hge
    · obtain ⟨hw2, hrep⟩ := write_ok x hl hnf
      have he := (overwrite_nonfull x hl hnf).symm.trans ho
      rw [Option.some_inj] at he
      exact ⟨l ++ [x], he ▸ hrep⟩
    · have hf : l.length = b0.size := Nat.le_antisymm hl.2.2.1 hge
      obtain ⟨ho2, hrep⟩ := overwrite_full x hl hf
      have he := ho2.symm.trans ho
      rw [Option.some_inj] at he
      exact ⟨l.tail ++ [x], he ▸ hrep⟩
  | clear b0 b2 hb hc ih =>
    obtain ⟨l, hl⟩ := ih
    obtain ⟨b3, hc2, hrep, hsz⟩ := clear_represents hl
    have he := hc2.symm.trans hc
    rw [Option.some_inj] at he
    exact ⟨[], he ▸ hrep⟩

/-- C1: FIFO order.  From any buffer in the empty state (capacity ≥ 1 is
implied by `Represents`), a sequence of writes `w1..wk` with `k ≤ capacity` and
no intervening reads all succeed, and the subsequent `k` reads return
`Ok(w1), ..., Ok(wk)` in that exact order. -/
theorem c1_fifo_order (b : CircularBuffer T) (ws : List T)
    (hb : Represents b []) (hk : ws.length ≤ b.size) :
    ∃ b2 b3, writes b ws = some (List.replicate ws.length (Except.ok ()), b2) ∧
      reads b2 ws.length = some (ws.map Except.ok, b3) := by
  obtain ⟨b2, hw, hrep, hsz⟩ := writes_ok ws hb (by simpa using hk)
  rw [List.nil_append] at hrep
  obtain ⟨b3, hr, -, -⟩ := reads_ok hrep
  exact ⟨b2, b3, hw, hr⟩

/-- C2: capacity bound.  On a freshly constructed buffer of capacity `n ≥ 1`,
`n` consecutive writes all return `Ok(())` and the `(n+1)`-th write fails with
`FullBuffer` (leaving the state unchanged). -/
theorem c2_capacity_bound (n : Nat) (ws : List T) (x : T)
    (h1 : 1 ≤ n) (h2 : ws.length = n) :
    ∃ b2, writes (CircularBuffer.new T n) ws =
        some (List.replicate n (Except.ok ()), b2) ∧
      b2.write x = some (Except.error Error.FullBuffer, b2) := by
  have hrep := new_represents (T := T) n h1
  have hroom : ([] : List T).length + ws.length ≤ (CircularBuffer.new T n).size := by
    simp [CircularBuffer.new, h2]
  obtain ⟨b2, hw, hrep2, hsz⟩ := writes_ok ws hrep hroom
  rw [List.nil_append] at hrep2
  rw [h2] at hw
  refine ⟨b2, hw, write_full x hrep2 ?_⟩
  rw [h2, hsz]
  rfl

/-- C3: failed operations do not mutate.  On any represented buffer state,
`write` on a full buffer returns `Err(FullBuffer)` with the state unchanged,
and `read` on an empty buffer returns `Err(EmptyBuffer)` with the state
unchanged. -/
theorem c3_no_mutation_on_failure (b : CircularBuffer T) (l : List T) (x : T)
    (h : Represents b l) :
    (l.length = b.size → b.write x = some (Except.error Error.FullBuffer, b)) ∧
    (l = [] → b.read = some (Except.error Error.EmptyBuffer, b)) :=
  ⟨fun hf => write_full x h hf, fun he => read_empty (he ▸ h)⟩

/-- C4: overwrite eviction.  On a full buffer holding `e1 (oldest) .. eN`,
`overwrite x` succeeds and the subsequent `N` reads return
`Ok(e2), ..., Ok(eN), Ok(x)`: the oldest element is discarded. -/
theorem c4_overwrite_eviction (b : CircularBuffer T) (l : List T) (x : T)
    (h : Represents b l) (hf : l.length = b.size) :
    ∃ b2 b3, b.overwrite x = some b2 ∧
      reads b2 b.size = some ((l.tail ++ [x]).map Except.ok, b3) := by
  obtain ⟨ho, hrep⟩ := overwrite_full x h hf
  obtain ⟨b3, hr, -, -⟩ := reads_ok hrep
  have hlen : (l.tail ++ [x]).length = b.size := by
    rw [List.length_append, List.length_tail, List.length_cons, List.length_nil]
    have := h.size_pos
    omega
  rw [hlen] at hr
  exact ⟨_, b3, ho, hr⟩

/-- C5 counterexample: on the state reachable for capacity 0 (the fresh
buffer), `overwrite` does not return normally: it panics (indexes slot 0 of a
zero-length slice), refuting "cannot fail under any state reachable for any
capacity". -/
theorem c5_overwrite_capacity_zero_panics :
    (CircularBuffer.new Nat 0).overwrite 7 = none := rfl

/-- C5 (amended to capacity ≥ 1): on every state reachable through the public
interface from `new(capacity)` with `capacity ≥ 1`, `overwrite` has no error
condition and always returns normally. -/
theorem c5_overwrite_total (b : CircularBuffer T) (x : T) (h : Reachable T b) :
    ∃ b2, b.overwrite x = some b2 := by
  obtain ⟨l, hl⟩ := reachable_represents h
  rcases Nat.lt_or_ge l.length b.size with hnf | hge
  · exact ⟨_, overwrite_nonfull x hl hnf⟩
  · exact ⟨_, (overwrite_full x hl (Nat.le_antisymm hl.2.2.1 hge)).1⟩

/-- C6: the claim says a capacity-0 buffer's `write` returns `Err(FullBuffer)`
and its `read` returns `Err(EmptyBuffer)` without out-of-range indexing; the
code instead indexes `data[0]` on a zero-length slice in both operations and
panics (modelled by `none`). -/
theorem c6_capacity_zero_write_read_panic :
    (CircularBuffer.new Nat 0).write 0 = none ∧
    (CircularBuffer.new Nat 0).read = none :=
  ⟨rfl, rfl⟩

/-- C7: overwrite-as-write equivalence.  On a non-full represented buffer,
`overwrite x` reaches exactly the state `write x` reaches (so the subsequent
full read-out yields the same `Ok` sequence for both). -/
theorem c7_overwrite_as_write (b : CircularBuffer T) (l : List T) (x : T)
    (h : Represents b l) (hnf : l.length < b.size) :
    ∃ b2 b3, b.overwrite x = some b2 ∧ b.write x = some (Except.ok (), b2) ∧
      reads b2 (l.length + 1) = some ((l ++ [x]).map Except.ok, b3) := by
  obtain ⟨hw, hrep⟩ := write_ok x h hnf
  obtain ⟨b3, hr, -, -⟩ := reads_ok hrep
  have hlen : (l ++ [x]).length = l.length + 1 := by
    rw [List.length_append, List.length_cons, List.length_nil]
  rw [hlen] at hr
  exact ⟨_, b3, overwrite_nonfull x h hnf, hw, hr⟩

/-- C8: clear idempotence.  On any represented buffer state, `clear` returns
normally, the next `read` fails with `EmptyBuffer`, and clearing again returns
the very same state: two clears are observationally one. -/
theorem c8_clear_idempotent (b : CircularBuffer T) (l : List T)
    (h : Represents b l) :
    ∃ b2, b.clear = some b2 ∧
      b2.read = some (Except.error Error.EmptyBuffer, b2) ∧
      b2.clear = some b2 := by
  obtain ⟨b2, hc, hrep, -⟩ := clear_represents h
  have hre := read_empty hrep
  exact ⟨b2, hc, hre, clear_of_read_error hre⟩

/-- C9: structural invariant of every reachable state (capacity ≥ 1): some
element list `l` is represented (the occupied slots are exactly the contiguous
circular segment of length `l.length` starting at `start` — that is what
`Represents` says slot by slot), both cursors lie in `[0, capacity)`, the slot
at `start` is occupied iff the buffer is nonempty, coinciding cursors mean
empty or full, and the source's full check answers `true` exactly on the full
states. -/
theorem c9_reachable_invariant (b : CircularBuffer T) (h : Reachable T b) :
    ∃ l, Represents b l ∧ b.start < b.size ∧ b.end_ < b.size ∧
      ((b.data[b.start]?).join.isSome ↔ l ≠ []) ∧
      (b.start = b.end_ → l = [] ∨ l.length = b.size) ∧
      (b.fullCheck = some true ↔ l.length = b.size) := by
  obtain ⟨l, hl⟩ := reachable_represents h
  refine ⟨l, hl, hl.2.1, hl.end_lt, ?_, ?_, ?_, ?_⟩
  · rw [hl.startSlot]
    cases l with
    | nil => simp
    | cons y t => simp
  · intro hse
    rcases hl.empty_or_full_of_start_eq_end hse with h0 | hfull
    · exact Or.inl (List.eq_nil_of_length_eq_zero h0)
    · exact Or.inr hfull
  · intro hfc
    by_contra hne
    have hnf : l.length < b.size := Nat.lt_of_le_of_ne hl.2.2.1 hne
    rw [fullCheck_nonfull hl hnf] at hfc
    simp at hfc
  · intro hf
    exact fullCheck_full hl hf

/-- C10: the fallback branch of `read` (taken when the slot was seen occupied
but `take` yields nothing; it increments `start` without wrapping) is
unreachable: whenever `read` returns an error at all, the error is
`EmptyBuffer`, the state is returned unchanged, and the start slot was empty —
i.e. the error came from the first branch, on any state whatsoever. -/
theorem c10_read_fallback_unreachable (b b2 : CircularBuffer T) (e : Error)
    (h : b.read = some (Except.error e, b2)) :
    e = Error.EmptyBuffer ∧ b2 = b ∧ b.data[b.start]? = some none := by
  cases hs : b.data[b.start]? with
  | none => simp [CircularBuffer.read, hs] at h
  | some slot =>
    cases slot with
    | none =>
      simp only [CircularBuffer.read, hs, Option.isNone_none, if_true] at h
      rw [Option.some_inj, Prod.mk.injEq] at h
      obtain ⟨h1, h2⟩ := h
      cases h1
      exact ⟨rfl, h2.symm, rfl⟩
    | some w =>
      by_cases hz : b.size = 0
      · simp [CircularBuffer.read, takeSlot, hs, hz] at h
      · simp [CircularBuffer.read, takeSlot, hs, hz] at h

/-- Witness for C1: fresh capacity-2 buffer, writes [4, 7]. -/
theorem c1_fifo_order_witness :
    ∃ b2 b3, writes (CircularBuffer.new Nat 2) [4, 7] =
        some (List.replicate ([4, 7] : List Nat).length (Except.ok ()), b2) ∧
      reads b2 ([4, 7] : List Nat).length =
        some (([4, 7] : List Nat).map Except.ok, b3) :=
  c1_fifo_order (CircularBuffer.new Nat 2) [4, 7] (by decide) (by decide)

/-- Witness for C2: capacity 1, write [5], then write 6. -/
theorem c2_capacity_bound_witness :
    ∃ b2, writes (CircularBuffer.new Nat 1) [5] =
        some (List.replicate 1 (Except.ok ()), b2) ∧
      b2.write 6 = some (Except.error Error.FullBuffer, b2) :=
  c2_capacity_bound 1 [5] 6 (by decide) (by decide)

/-- Witness for C3: the full capacity-1 buffer holding 5. -/
theorem c3_no_mutation_on_failure_witness :
    (([5] : List Nat).length = (CircularBuffer.mk [some 5] 1 0 0).size →
      (CircularBuffer.mk [some 5] 1 0 0).write 9 =
        some (Except.error Error.FullBuffer, CircularBuffer.mk [some 5] 1 0 0)) ∧
    (([5] : List Nat) = [] →
      (CircularBuffer.mk [some 5] 1 0 0).read =
        some (Except.error Error.EmptyBuffer, CircularBuffer.mk [some 5] 1 0 0)) :=
  c3_no_mutation_on_failure (CircularBuffer.mk [some 5] 1 0 0) [5] 9 (by decide)

/-- Witness for C4: the full capacity-1 buffer holding 5, overwritten with 9. -/
theorem c4_overwrite_eviction_witness :
    ∃ b2 b3, (CircularBuffer.mk [some 5] 1 0 0).overwrite 9 = some b2 ∧
      reads b2 (CircularBuffer.mk [some 5] 1 0 0).size =
        some ((([5] : List Nat).tail ++ [9]).map Except.ok, b3) :=
  c4_overwrite_eviction (CircularBuffer.mk [some 5] 1 0 0) [5] 9 (by decide)
    (by decide)

/-- Witness for C5 (amended): the fresh capacity-1 buffer. -/
theorem c5_overwrite_total_witness :
    ∃ b2, (CircularBuffer.new Nat 1).overwrite 5 = some b2 :=
  c5_overwrite_total (CircularBuffer.new Nat 1) 5 (Reachable.new 1 (by decide))

/-- Witness for C7: the fresh capacity-2 buffer, element 4. -/
theorem c7_overwrite_as_write_witness :
    ∃ b2 b3, (CircularBuffer.new Nat 2).overwrite 4 = some b2 ∧
      (CircularBuffer.new Nat 2).write 4 = some (Except.ok (), b2) ∧
      reads b2 (([] : List Nat).length + 1) =
        some ((([] : List Nat) ++ [4]).map Except.ok, b3) :=
  c7_overwrite_as_write (CircularBuffer.new Nat 2) [] 4 (by decide) (by decide)

/-- Witness for C8: the full capacity-1 buffer holding 5. -/
theorem c8_clear_idempotent_witness :
    ∃ b2, (CircularBuffer.mk [some 5] 1 0 0).clear = some b2 ∧
      b2.read = some (Except.error Error.EmptyBuffer, b2) ∧
      b2.clear = some b2 :=
  c8_clear_idempotent (CircularBuffer.mk [some 5] 1 0 0) [5] (by decide)

/-- Witness for C9: the fresh capacity-1 buffer. -/
theorem c9_reachable_invariant_witness :
    ∃ l, Represents (CircularBuffer.new Nat 1) l ∧
      (CircularBuffer.new Nat 1).start < (CircularBuffer.new Nat 1).size ∧
      (CircularBuffer.new Nat 1).end_ < (CircularBuffer.new Nat 1).size ∧
      (((CircularBuffer.new Nat 1).data[(CircularBuffer.new Nat 1).start]?).join.isSome
        ↔ l ≠ []) ∧
      ((CircularBuffer.new Nat 1).start = (CircularBuffer.new Nat 1).end_ →
        l = [] ∨ l.length = (CircularBuffer.new Nat 1).size) ∧
      ((CircularBuffer.new Nat 1).fullCheck = some true ↔
        l.length = (CircularBuffer.new Nat 1).size) :=
  c9_reachable_invariant (CircularBuffer.new Nat 1) (Reachable.new 1 (by decide))

/-- Witness for C10: reading the fresh capacity-1 buffer returns an error, and
the conclusion holds there. -/
theorem c10_read_fallback_unreachable_witness :
    Error.EmptyBuffer = Error.EmptyBuffer ∧
      CircularBuffer.new Nat 1 = CircularBuffer.new Nat 1 ∧
      (CircularBuffer.new Nat 1).data[(CircularBuffer.new Nat 1).start]? =
        some none :=
  c10_read_fallback_unreachable (CircularBuffer.new Nat 1)
    (CircularBuffer.new Nat 1) Error.EmptyBuffer (by rfl)
